import Mathlib

/-!
Verification of the DocBook-to-HTML converter core (src/converters/xml.js).

The converter operates on an HTML document through the cheerio DOM
library.  We embed the document as a tree of nodes (element nodes with a
tag, an attribute list and a child list, plus raw text nodes) and
translate each operation of the source file into a function on node
lists.  Serialized HTML strings are produced by renderL, which models the
cheerio serializer for ordinary (non-void) elements with attributes
rendered in insertion order.

The table of contents that parseChapters reads out of the document
(div.toc holding ul.toc and li entries, each li holding a span wrapping a
link) is represented by the TocEntry tree: one entry per li, carrying the
classification read from the span class, the anchor id derived from the
link reference, the title text, and the parsed sub-list.  The recursive
walker parseList, the extractor extractHTML, the sibling assignment, the
flattening of the chapter tree, the anchor reconciler setTitlesId and the
five rewrite passes of processHTML are all translated below, each next to
a comment naming the source lines it embeds.  Traversals over the node
tree are written as mutually recursive node-level and list-level pairs.
-/

/-- HTML node: raw text or an element with tag, attributes and children. -/
inductive HNode : Type where
  | text (s : String)
  | elem (tag : String) (attrs : List (String × String)) (children : List HNode)

/-- Tag of a node; text nodes get the empty tag, which no selector matches. -/
def HNode.tag : HNode → String
  | .text _ => ""
  | .elem t _ _ => t

/-- Attribute list of a node (empty for text nodes). -/
def HNode.attrs : HNode → List (String × String)
  | .text _ => []
  | .elem _ a _ => a

/-- Child list of a node (empty for text nodes). -/
def HNode.children : HNode → List HNode
  | .text _ => []
  | .elem _ _ c => c

/-- True for element nodes, false for text nodes. -/
def isElem : HNode → Bool
  | .text _ => false
  | .elem _ _ _ => true

/-- Element children of a child list, as returned by the cheerio children()
traversal (text nodes are skipped). -/
def elemChildren (ns : List HNode) : List HNode := ns.filter isElem

/-- First value bound to a key in an attribute list, as cheerio attr(name). -/
def getAttrL : List (String × String) → String → Option String
  | [], _ => none
  | (k, v) :: rest, key => if k = key then some v else getAttrL rest key

/-- Attribute list with every binding of a key dropped, as cheerio
removeAttr(name). -/
def removeAttrL : List (String × String) → String → List (String × String)
  | [], _ => []
  | (k, v) :: rest, key =>
      if k = key then removeAttrL rest key else (k, v) :: removeAttrL rest key

/-- Attribute list with a key set to a value, updating an existing binding in
place or appending a fresh one, as cheerio attr(name, value). -/
def setAttrL : List (String × String) → String → String → List (String × String)
  | [], key, val => [(key, val)]
  | (k, v) :: rest, key, val =>
      if k = key then (k, val) :: rest else (k, v) :: setAttrL rest key val

/-- Whitespace characters recognised when splitting a class attribute. -/
def isWSChar (c : Char) : Bool :=
  c = ' ' || c = '\t' || c = '\n' || c = '\r'

/-- Split a character list into maximal non-whitespace runs. -/
def splitWS : List Char → List Char → List String
  | [], acc => if acc.isEmpty then [] else [String.mk acc.reverse]
  | c :: rest, acc =>
      if isWSChar c then
        if acc.isEmpty then splitWS rest [] else String.mk acc.reverse :: splitWS rest []
      else splitWS rest (c :: acc)

/-- Class-selector test: the class attribute, split on whitespace, contains
the given class name (cheerio .cls selectors). -/
def hasClassL (a : List (String × String)) (cls : String) : Bool :=
  match getAttrL a "class" with
  | some s => (splitWS s.data []).contains cls
  | none => false

/-- Serialize an attribute list. -/
def renderAttrs : List (String × String) → String
  | [] => ""
  | (k, v) :: rest => " " ++ k ++ "=\"" ++ v ++ "\"" ++ renderAttrs rest

mutual

/-- Serialize one node, as the cheerio html() serializer does for ordinary
elements and raw text. -/
def renderN : HNode → String
  | HNode.text s => s
  | HNode.elem t a c => "<" ++ t ++ renderAttrs a ++ ">" ++ renderL c ++ "</" ++ t ++ ">"

/-- Serialize a node list to an HTML string. -/
def renderL : List HNode → String
  | [] => ""
  | n :: rest => renderN n ++ renderL rest

end

mutual

/-- Number of nodes in a subtree, the root included. -/
def nodeCount : HNode → Nat
  | HNode.text _ => 1
  | HNode.elem _ _ c => 1 + nodesCount c

/-- Number of nodes (text and element) in a node list, counting every
nested descendant. -/
def nodesCount : List HNode → Nat
  | [] => 0
  | n :: rest => nodeCount n + nodesCount rest

end

/-- Selector match for the chapter selector (xml.js line 231): an element
whose id attribute equals the given title id. -/
def matchesId (tid : String) (n : HNode) : Bool :=
  match n with
  | HNode.text _ => false
  | HNode.elem _ a _ => getAttrL a "id" == some tid

mutual

/-- Nodes matched by the chapter selector within one subtree, in document
order, nested matches included. -/
def collectMatchesN (tid : String) : HNode → List HNode
  | HNode.text _ => []
  | HNode.elem t a c =>
      (if matchesId tid (HNode.elem t a c) then [HNode.elem t a c] else []) ++
        collectMatches tid c

/-- All nodes matched by the chapter selector, in document order: this is
the node list whose serialization extractHTML (xml.js lines 165-173)
captures as the chapter content. -/
def collectMatches (tid : String) : List HNode → List HNode
  | [] => []
  | n :: rest => collectMatchesN tid n ++ collectMatches tid rest

end

mutual

/-- One subtree after element.remove(): gone entirely when its root
matches, otherwise kept with the matched descendants detached. -/
def removeMatchesN (tid : String) : HNode → List HNode
  | HNode.text s => [HNode.text s]
  | HNode.elem t a c =>
      if matchesId tid (HNode.elem t a c) then []
      else [HNode.elem t a (removeMatches tid c)]

/-- The document after element.remove() in extractHTML (xml.js lines
165-173): every subtree rooted at a matched element is detached. -/
def removeMatches (tid : String) : List HNode → List HNode
  | [] => []
  | n :: rest => removeMatchesN tid n ++ removeMatches tid rest

end

/-- extractHTML (xml.js lines 165-173): capture the serialized matched
subtrees as the content and detach them from the shared document. -/
def extractNodes (tid : String) (doc : List HNode) : List HNode × List HNode :=
  (collectMatches tid doc, removeMatches tid doc)

/-- Number of elements matching an id selector in a document. -/
def countMatches (tid : String) (ns : List HNode) : Nat :=
  (collectMatches tid ns).length

mutual

/-- Id attribute values occurring in one subtree, in document order. -/
def collectIdsN : HNode → List String
  | HNode.text _ => []
  | HNode.elem _ a c =>
      (match getAttrL a "id" with
        | some v => [v]
        | none => []) ++ collectIds c

/-- Every id attribute value occurring in a document, in document order. -/
def collectIds : List HNode → List String
  | [] => []
  | n :: rest => collectIdsN n ++ collectIds rest

end

mutual

/-- First element in pre-order within one subtree satisfying a predicate
(the root included), as the cheerio find(...).first() traversal. -/
def firstDescN (p : HNode → Bool) : HNode → Option HNode
  | HNode.text _ => none
  | HNode.elem t a c =>
      if p (HNode.elem t a c) then some (HNode.elem t a c) else firstDescP p c

/-- First element in pre-order in a forest satisfying a predicate. -/
def firstDescP (p : HNode → Bool) : List HNode → Option HNode
  | [] => none
  | n :: rest =>
      match firstDescN p n with
      | some r => some r
      | none => firstDescP p rest

end

/-- Some element of the subtree satisfies the predicate. -/
def anyDescN (p : HNode → Bool) (n : HNode) : Bool := (firstDescN p n).isSome

/-- Some element of the forest satisfies the predicate. -/
def anyDescP (p : HNode → Bool) (ns : List HNode) : Bool := (firstDescP p ns).isSome

mutual

/-- Rewrite the first matching element of a subtree known to contain one. -/
def mapFirstDescN (p : HNode → Bool) (f : HNode → HNode) : HNode → HNode
  | HNode.text s => HNode.text s
  | HNode.elem t a c =>
      if p (HNode.elem t a c) then f (HNode.elem t a c)
      else HNode.elem t a (mapFirstDescP p f c)

/-- Rewrite the first element in pre-order satisfying the predicate by a
function, leaving everything else in place. -/
def mapFirstDescP (p : HNode → Bool) (f : HNode → HNode) : List HNode → List HNode
  | [] => []
  | n :: rest =>
      if anyDescN p n then mapFirstDescN p f n :: rest
      else n :: mapFirstDescP p f rest

end

mutual

/-- Detach the first matching element of a subtree known to contain one. -/
def removeFirstDescN (p : HNode → Bool) : HNode → List HNode
  | HNode.text s => [HNode.text s]
  | HNode.elem t a c =>
      if p (HNode.elem t a c) then [] else [HNode.elem t a (removeFirstDescP p c)]

/-- Detach the first element in pre-order satisfying the predicate,
together with its subtree, as cheerio remove() on a first() selection. -/
def removeFirstDescP (p : HNode → Bool) : List HNode → List HNode
  | [] => []
  | n :: rest =>
      if anyDescN p n then removeFirstDescN p n ++ rest
      else n :: removeFirstDescP p rest

end

/-- Tag-selector predicate. -/
def tagP (t : String) : HNode → Bool := fun n => n.tag == t

/-- Drop leading whitespace of a string. -/
def dropWSLeft (s : String) : String := String.mk (s.data.dropWhile isWSChar)

/-- Drop trailing whitespace of a string. -/
def dropWSRight (s : String) : String :=
  String.mk ((s.data.reverse.dropWhile isWSChar).reverse)

/-- Trim leading whitespace of a serialized node list at the node level. -/
def trimTextLeft : List HNode → List HNode
  | HNode.text s :: rest =>
      if dropWSLeft s = "" then trimTextLeft rest else HNode.text (dropWSLeft s) :: rest
  | ns => ns

/-- Trim trailing whitespace, operating on a reversed node list. -/
def trimTextRightRev : List HNode → List HNode
  | HNode.text s :: rest =>
      if dropWSRight s = "" then trimTextRightRev rest else HNode.text (dropWSRight s) :: rest
  | ns => ns

/-- Node-level counterpart of the string trim applied to the inner markup
of the paragraph in the literal-layout rewrite. -/
def trimNodes (ns : List HNode) : List HNode :=
  (trimTextRightRev (trimTextLeft ns).reverse).reverse

mutual

/-- Literal-layout rewrite on one subtree; see literalList. -/
def literalN : HNode → Except String HNode
  | HNode.text s => Except.ok (HNode.text s)
  | HNode.elem t a c =>
      if hasClassL a "literallayout" then
        match firstDescP (tagP "p") c with
        | none => Except.error "TypeError: cannot call trim on null"
        | some p => Except.ok (HNode.elem "pre" [] [HNode.elem "code" [] (trimNodes p.children)])
      else
        match literalList c with
        | Except.error e => Except.error e
        | Except.ok c2 => Except.ok (HNode.elem t a c2)

/-- Literal-layout rewrite (xml.js lines 246-253): a container carrying the
literallayout class is replaced by a pre block wrapping a code span whose
content is the trimmed inner markup of the first paragraph descendant.
When the container has no paragraph descendant, the html() call on the
empty selection yields null and the trim() call on it raises a TypeError
that aborts the whole pass, which the Except error models.  The paragraph
content is re-parsed from its serialization, so markup inside it is a
fresh copy that the pass does not revisit. -/
def literalList : List HNode → Except String (List HNode)
  | [] => Except.ok []
  | n :: rest =>
      match literalN n with
      | Except.error e => Except.error e
      | Except.ok n2 =>
          match literalList rest with
          | Except.error e => Except.error e
          | Except.ok r => Except.ok (n2 :: r)

end

mutual

/-- Program-listing rewrite on one subtree; see wrapListingList. -/
def wrapListingN : HNode → HNode
  | HNode.text s => HNode.text s
  | HNode.elem t a c =>
      if t = "pre" && (hasClassL a "programlisting" || hasClassL a "screen") then
        HNode.elem t a [HNode.elem "code" [] (wrapListingList c)]
      else HNode.elem t a (wrapListingList c)

/-- Program-listing rewrite (xml.js lines 256-261): every pre block carrying
the programlisting or screen class has its inner markup emptied and
re-appended wrapped in a fresh code span.  Nothing marks the block as
already processed, so a block that is already wrapped is wrapped again. -/
def wrapListingList : List HNode → List HNode
  | [] => []
  | n :: rest => wrapListingN n :: wrapListingList rest

end

/-- Caption sub-container selector of the example rewrite. -/
def exCaptionP : HNode → Bool := fun n => n.tag == "div" && hasClassL n.attrs "example-title"

mutual

/-- Caption replacement on one subtree; see exReplaceCaps. -/
def exReplaceCapsN (h : HNode) : HNode → HNode
  | HNode.text s => HNode.text s
  | HNode.elem t a c =>
      if exCaptionP (HNode.elem t a c) then h
      else HNode.elem t a (exReplaceCaps h c)

/-- Replace every caption sub-container by the constructed heading, as
replaceWith does on the whole caption selection; caption content lives on
only inside the heading. -/
def exReplaceCaps (h : HNode) : List HNode → List HNode
  | [] => []
  | n :: rest => exReplaceCapsN h n :: exReplaceCaps h rest

end

mutual

/-- Example rewrite on one subtree; see examplePassList. -/
def exampleN : HNode → HNode
  | HNode.text s => HNode.text s
  | HNode.elem t a c =>
      if t = "div" && hasClassL a "example" then
        match firstDescP exCaptionP (examplePassList c) with
        | some cap =>
            HNode.elem t (removeAttrL a "id")
              (exReplaceCaps
                (HNode.elem "h6"
                  (match getAttrL a "id" with
                    | some v => [("id", v)]
                    | none => [])
                  cap.children)
                (examplePassList c))
        | none => HNode.elem t (removeAttrL a "id") (examplePassList c)
      else HNode.elem t a (examplePassList c)

/-- Example rewrite (xml.js lines 264-278): each div.example container loses
its id; a level-6 heading carrying that id and the inner markup of the
first caption sub-container replaces the caption in place.  When the
container has no caption the heading is built but replaceWith acts on an
empty selection, so only the id removal is observable. -/
def examplePassList : List HNode → List HNode
  | [] => []
  | n :: rest => exampleN n :: examplePassList rest

end

/-- The link has exactly one element child and that child is a sup marker
(the guard of the footnote-reference rewrite, xml.js lines 282-292). -/
def isSingleSup (c : List HNode) : Bool :=
  match elemChildren c with
  | [HNode.elem t _ _] => t == "sup"
  | _ => false

mutual

/-- Footnote-reference rewrite on one subtree; see fnoteRefList. -/
def fnoteRefN : HNode → HNode
  | HNode.text s => HNode.text s
  | HNode.elem t a c =>
      if t = "a" && (hasClassL a "footnote" || hasClassL a "footnoteref") then
        match elemChildren c with
        | [HNode.elem "sup" sa sc] =>
            HNode.elem "sup" sa [HNode.text "", HNode.elem "a" a sc]
        | _ => HNode.elem t a (fnoteRefList c)
      else HNode.elem t a (fnoteRefList c)

/-- Footnote-reference rewrite (xml.js lines 281-303): a link carrying the
footnote or footnoteref class whose only element child is a sup marker is
replaced by that sup, whose text is emptied and which then holds the link;
the link label is set to the former inner markup of the sup (a fresh
re-parsed copy, so the pass does not revisit it).  Links failing the guard
are kept, their subtrees processed as the snapshot iteration does. -/
def fnoteRefList : List HNode → List HNode
  | [] => []
  | n :: rest => fnoteRefN n :: fnoteRefList rest

end

/-- Footnote-body rewrite step (xml.js lines 306-328) on one div.footnote
container: the first paragraph, link and sup descendants are looked up
once; the container id moves to the sup; the link is detached; the sup
content becomes its former content followed by the paragraph content
(null rendered as the text null when the paragraph is missing, as the
string concatenation does) and the relabeled link; the sup is moved to be
the sole content of the paragraph.  The cheerio selections keep pointing
at the detached nodes, so when the paragraph was inside the removed link
the sup ends up inside a detached tree and disappears from the output. -/
def fnoteDivRule (a : List (String × String)) (c : List HNode) :
    List (String × String) × List HNode :=
  let a2 := removeAttrL a "id"
  let c2 := match firstDescP (tagP "a") c with
    | some _ => removeFirstDescP (tagP "a") c
    | none => c
  match firstDescP (tagP "sup") c with
  | none => (a2, mapFirstDescP (tagP "p") (fun q => HNode.elem "p" q.attrs []) c2)
  | some s0 =>
      let sAttrs := match getAttrL a "id" with
        | some v => setAttrL s0.attrs "id" v
        | none => s0.attrs
      let aPart : List HNode := match firstDescP (tagP "a") c with
        | some a0 => [HNode.elem "a" a0.attrs [HNode.text "↑"]]
        | none => []
      match firstDescP (tagP "p") c2 with
      | some pc =>
          (a2, mapFirstDescP (tagP "p")
              (fun q => HNode.elem "p" q.attrs
                [HNode.elem "sup" sAttrs (s0.children ++ pc.children ++ aPart)])
              (removeFirstDescP (tagP "sup") c2))
      | none =>
          match firstDescP (tagP "p") c with
          | some _ => (a2, removeFirstDescP (tagP "sup") c2)
          | none =>
              (a2, mapFirstDescP (tagP "sup")
                (fun _ => HNode.elem "sup" sAttrs (s0.children ++ [HNode.text "null"] ++ aPart))
                c2)

mutual

/-- Footnote-body rewrite on one subtree; see fnoteDivList. -/
def fnoteDivN : HNode → HNode
  | HNode.text s => HNode.text s
  | HNode.elem t a c =>
      if t = "div" && hasClassL a "footnote" then
        HNode.elem t (fnoteDivRule a (fnoteDivList c)).1 (fnoteDivRule a (fnoteDivList c)).2
      else HNode.elem t a (fnoteDivList c)

/-- Footnote-body rewrite (xml.js lines 306-328) over the document. -/
def fnoteDivList : List HNode → List HNode
  | [] => []
  | n :: rest => fnoteDivN n :: fnoteDivList rest

end

/-- processHTML (xml.js lines 241-331): the five rewrite passes in source
order.  The literal-layout pass is the only one that can raise. -/
def processHTML (doc : List HNode) : Except String (List HNode) :=
  match literalList doc with
  | Except.error e => Except.error e
  | Except.ok d1 => Except.ok (fnoteDivList (fnoteRefList (examplePassList (wrapListingList d1))))

/-- Header-tag test matching the :header pseudo selector (h1 through h6). -/
def isHeaderTag (t : String) : Bool :=
  t == "h1" || t == "h2" || t == "h3" || t == "h4" || t == "h5" || t == "h6"

/-- Header-element test. -/
def isHeaderNode (n : HNode) : Bool := isHeaderTag n.tag

/-- Id attribute of the first header descendant: none when there is no
header, otherwise the id attribute of the first header in pre-order. -/
def firstHeaderIdAttr (ns : List HNode) : Option (Option String) :=
  match firstDescP isHeaderNode ns with
  | some n => some (getAttrL n.attrs "id")
  | none => none

/-- Set the id attribute of the first header descendant, leaving the forest
unchanged when it has no header (attr on an empty selection). -/
def setFirstHeaderIdAttr (v : String) (ns : List HNode) : List HNode :=
  mapFirstDescP isHeaderNode
    (fun n => HNode.elem n.tag (setAttrL n.attrs "id" v) n.children) ns

/-- JavaScript truthiness of an optional attribute value: an absent
attribute reads as undefined and an empty string is falsy. -/
def truthyS : Option String → Bool
  | some s => s != ""
  | none => false

/-- Rule body of setTitlesId for one section element (xml.js lines 185-198):
skip when the section id is falsy; otherwise, when the first header
descendant has a falsy id attribute or there is no header at all, set the
first header id (a no-op on an empty selection) and remove the section
id; when the header already has a non-empty id, leave both untouched. -/
def sectionRule (a : List (String × String)) (c : List HNode) :
    List (String × String) × List HNode :=
  match getAttrL a "id" with
  | none => (a, c)
  | some sid =>
      if sid = "" then (a, c)
      else
        match firstHeaderIdAttr c with
        | some (some hid) =>
            if hid = "" then (removeAttrL a "id", setFirstHeaderIdAttr sid c) else (a, c)
        | some none => (removeAttrL a "id", setFirstHeaderIdAttr sid c)
        | none => (removeAttrL a "id", setFirstHeaderIdAttr sid c)

mutual

/-- Rewriting the first matching node with a node-count preserving function
preserves the subtree node count (termination measure support). -/
theorem nodeCount_mapFirstDescN (p : HNode → Bool) (f : HNode → HNode)
    (hf : ∀ m, nodeCount (f m) = nodeCount m) (n : HNode) :
    nodeCount (mapFirstDescN p f n) = nodeCount n := by
  cases n with
  | text s => simp [mapFirstDescN]
  | elem t a c =>
      by_cases h : p (HNode.elem t a c) = true
      · simp [mapFirstDescN, h, hf]
      · simp [mapFirstDescN, h, nodeCount, nodesCount_mapFirstDescP p f hf c]

/-- Rewriting the first matching node with a node-count preserving function
preserves the forest node count. -/
theorem nodesCount_mapFirstDescP (p : HNode → Bool) (f : HNode → HNode)
    (hf : ∀ m, nodeCount (f m) = nodeCount m) (ns : List HNode) :
    nodesCount (mapFirstDescP p f ns) = nodesCount ns := by
  cases ns with
  | nil => simp [mapFirstDescP]
  | cons n rest =>
      by_cases h : anyDescN p n = true
      · simp [mapFirstDescP, h, nodesCount, nodeCount_mapFirstDescN p f hf n]
      · simp [mapFirstDescP, h, nodesCount, nodesCount_mapFirstDescP p f hf rest]

end

/-- Setting the first header id preserves the node count. -/
theorem nodesCount_setFirstHeaderIdAttr (v : String) (ns : List HNode) :
    nodesCount (setFirstHeaderIdAttr v ns) = nodesCount ns := by
  refine nodesCount_mapFirstDescP _ _ (fun m => ?_) ns
  cases m <;> simp [nodeCount, nodesCount, HNode.tag, HNode.attrs, HNode.children]

/-- The section rule preserves the node count of the children. -/
theorem nodesCount_sectionRule (a : List (String × String)) (c : List HNode) :
    nodesCount (sectionRule a c).2 = nodesCount c := by
  unfold sectionRule
  repeat' split
  all_goals simp [nodesCount_setFirstHeaderIdAttr]

/-- setTitlesId traversal (xml.js lines 185-198): the snapshot iteration
over every section element in pre-order, with the rule of each section
applied before its descendants are visited, exactly as the each loop sees
the attribute mutations of the enclosing sections. -/
def setIdsList : List HNode → List HNode
  | [] => []
  | HNode.text s :: rest => HNode.text s :: setIdsList rest
  | HNode.elem t a c :: rest =>
      if t = "section" then
        HNode.elem t (sectionRule a c).1 (setIdsList (sectionRule a c).2) :: setIdsList rest
      else HNode.elem t a (setIdsList c) :: setIdsList rest
termination_by ns => nodesCount ns
decreasing_by
  all_goals simp [nodesCount, nodeCount, nodesCount_sectionRule]
  all_goals omega

/-- One table-of-contents entry, as read from an li element of the TOC list
by extractTOCTitleInfo (xml.js lines 213-222): the classification taken
from the class of the label span, the anchor id derived from the link
reference fragment, the title text, and the entries of the nested
sub-list (xml.js line 132). -/
inductive TocEntry : Type where
  | mk (typ : Option String) (titleId : String) (title : String) (subs : List TocEntry)

/-- Chapter record built by parseList (xml.js lines 110-156).  The sibling
references previous and nxt of the source are object references into the
sibling group; following the arena representation they are modeled as
positions (indices) in the group.  The parent back-reference carries no
information the tree does not and is omitted. -/
inductive Chapter : Type where
  | mk (typ : Option String) (titleId : String) (title : String) (level : Nat) (num : Nat)
      (content : List HNode) (previous : Option Nat) (nxt : Option Nat)
      (children : List Chapter)

/-- Anchor id of a chapter. -/
def Chapter.titleId : Chapter → String
  | .mk _ tid _ _ _ _ _ _ _ => tid

/-- Extracted content of a chapter, as a node list; the content string of
the source is its serialization renderL. -/
def Chapter.content : Chapter → List HNode
  | .mk _ _ _ _ _ co _ _ _ => co

/-- Previous-sibling reference of a chapter. -/
def Chapter.previous : Chapter → Option Nat
  | .mk _ _ _ _ _ _ p _ _ => p

/-- Next-sibling reference of a chapter. -/
def Chapter.nxt : Chapter → Option Nat
  | .mk _ _ _ _ _ _ _ n _ => n

/-- Child chapters of a chapter. -/
def Chapter.childList : Chapter → List Chapter
  | .mk _ _ _ _ _ _ _ _ ch => ch

/-- Chapter with its sibling references replaced. -/
def Chapter.withPN (p n : Option Nat) : Chapter → Chapter
  | .mk ty tid ti lv nm co _ _ ch => .mk ty tid ti lv nm co p n ch

/-- Sibling assignment pass over a group (xml.js lines 143-153): the
chapter at position i receives the previous reference i - 1 when i > 0 and
the next reference i + 1 when i + 1 is below the group length. -/
def applySib (len : Nat) : Nat → List Chapter → List Chapter
  | _, [] => []
  | i, c :: rest =>
      c.withPN (if 0 < i then some (i - 1) else none)
          (if i + 1 < len then some (i + 1) else none)
        :: applySib len (i + 1) rest

/-- Set siblings over a fully materialized group, as the map at xml.js
lines 143-153. -/
def setSiblings (cs : List Chapter) : List Chapter := applySib cs.length 0 cs

mutual

/-- Loop body of parseList for one entry (xml.js lines 118-140): build the
chapter record with the TOC metadata, the given level and num, parse the
nested sub-list first with level + 1 (xml.js line 133, sibling references
assigned by the recursive call), then extract the chapter content from
the shared document via the id selector (lines 136-137), threading the
reduced document onward. -/
def parseEntry : TocEntry → Nat → Nat → List HNode → Chapter × List HNode
  | TocEntry.mk ty tid ti subs, level, num, doc =>
      let cd := parseEntries subs (level + 1) 1 doc
      let ex := extractNodes tid cd.2
      (Chapter.mk ty tid ti level num ex.1 none none (setSiblings cd.1), ex.2)

/-- The entries of one level in document order, num counting the 1-based
position (xml.js line 129), the document threaded left to right. -/
def parseEntries : List TocEntry → Nat → Nat → List HNode → List Chapter × List HNode
  | [], _, _, doc => ([], doc)
  | e :: rest, level, num, doc =>
      let cd := parseEntry e level num doc
      let sib := parseEntries rest level (num + 1) cd.2
      (cd.1 :: sib.1, sib.2)

end

/-- parseList (xml.js lines 110-156): process the entries of one level and
set the sibling references of the resulting group.  Returns the group
together with the reduced shared document. -/
def parseList (entries : List TocEntry) (level : Nat) (doc : List HNode) :
    List Chapter × List HNode :=
  let r := parseEntries entries level 1 doc
  (setSiblings r.1, r.2)

mutual

/-- Modelled from the spec: getChildrenDeep of the chapter base class
(types/chapter, not under src/) linearizes a chapter tree by pre-order
traversal, the node followed by the flattened sequence of its children. -/
def flattenOne : Chapter → List Chapter
  | Chapter.mk ty tid ti lv nm co p n ch =>
      Chapter.mk ty tid ti lv nm co p n ch :: flattenChapters ch

/-- Flattening of the chapter forest, as parseChapters (xml.js lines 85-88)
maps getChildrenDeep over the top-level group and flattens. -/
def flattenChapters : List Chapter → List Chapter
  | [] => []
  | c :: rest => flattenOne c ++ flattenChapters rest

end

/-- Total node count of the contents of a flat chapter list. -/
def contentsCount : List Chapter → Nat
  | [] => 0
  | c :: rest => nodesCount c.content + contentsCount rest

/-- Chapter with its content replaced. -/
def Chapter.withContent (co : List HNode) : Chapter → Chapter
  | .mk ty tid ti lv nm _ p n ch => .mk ty tid ti lv nm co p n ch

/-- setTitlesId (xml.js lines 180-203) over the flattened chapter list:
each chapter content is reloaded, rewritten by the section traversal and
serialized back. -/
def setTitlesId (cs : List Chapter) : List Chapter :=
  cs.map (fun c => c.withContent (setIdsList c.content))

/-- parseChapters (xml.js lines 66-100) after the table of contents has
been read and detached from the document: walk the TOC from level 0,
flatten the chapter tree, apply setTitlesId, and keep the residual
document, which becomes the content of the front-matter readme (the
Readme record and its title handling live in types/readme, outside src;
per the spec the front-matter content is the remaining HTML). -/
def parseChapters (toc : List TocEntry) (doc : List HNode) :
    List Chapter × List HNode :=
  let r := parseList toc 0 doc
  (setTitlesId (flattenChapters r.1), setIdsList r.2)

/-- Node counts add over list concatenation. -/
theorem nodesCount_append (ns ms : List HNode) :
    nodesCount (ns ++ ms) = nodesCount ns + nodesCount ms := by
  induction ns with
  | nil => simp [nodesCount]
  | cons n rest ih => simp [nodesCount, ih]; omega

/-- Collected id values distribute over list concatenation. -/
theorem collectIds_append (ns ms : List HNode) :
    collectIds (ns ++ ms) = collectIds ns ++ collectIds ms := by
  induction ns with
  | nil => simp [collectIds]
  | cons n rest ih => simp [collectIds, ih]

mutual

/-- The number of matches of an id selector in a subtree is the number of
occurrences of the id among the subtree id values. -/
theorem countIdsN_eq (tid : String) (n : HNode) :
    (collectMatchesN tid n).length = (collectIdsN n).count tid := by
  cases n with
  | text s => simp [collectMatchesN, collectIdsN]
  | elem t a c =>
      cases h : getAttrL a "id" with
      | none =>
          have hm : matchesId tid (HNode.elem t a c) = false := by
            simp [matchesId, h]
          simp [collectMatchesN, collectIdsN, h, hm, countIds_eq tid c]
      | some v =>
          by_cases hv : v = tid
          · have hm : matchesId tid (HNode.elem t a c) = true := by
              simp [matchesId, h, hv]
            simp [collectMatchesN, collectIdsN, h, hm, hv, countIds_eq tid c,
              List.count_cons]
          · have hm : matchesId tid (HNode.elem t a c) = false := by
              simp [matchesId, h, hv]
            simp [collectMatchesN, collectIdsN, h, hm, countIds_eq tid c, List.count_cons, hv]

/-- The number of matches of an id selector in a document is the number of
occurrences of the id among the document id values. -/
theorem countIds_eq (tid : String) (ns : List HNode) :
    (collectMatches tid ns).length = (collectIds ns).count tid := by
  cases ns with
  | nil => simp [collectMatches, collectIds]
  | cons n rest =>
      simp [collectMatches, collectIds, List.count_append, countIdsN_eq tid n,
        countIds_eq tid rest]

end

mutual

/-- Detaching matched elements keeps the remaining subtree id values a
sublist of the original ones. -/
theorem collectIds_removeN_sublist (tid : String) (n : HNode) :
    (collectIds (removeMatchesN tid n)).Sublist (collectIdsN n) := by
  cases n with
  | text s => simp [removeMatchesN, collectIds, collectIdsN]
  | elem t a c =>
      by_cases hm : matchesId tid (HNode.elem t a c) = true
      · simp [removeMatchesN, hm, collectIds]
      · simp only [removeMatchesN, hm, Bool.false_eq_true, if_false]
        have : collectIds [HNode.elem t a (removeMatches tid c)]
            = (match getAttrL a "id" with
                | some v => [v]
                | none => []) ++ collectIds (removeMatches tid c) := by
          simp [collectIds, collectIdsN]
        rw [this]
        simp only [collectIdsN]
        exact List.Sublist.append (List.Sublist.refl _) (collectIds_remove_sublist tid c)

/-- Detaching matched elements keeps the document id values a sublist of
the original ones. -/
theorem collectIds_remove_sublist (tid : String) (ns : List HNode) :
    (collectIds (removeMatches tid ns)).Sublist (collectIds ns) := by
  cases ns with
  | nil => simp [removeMatches, collectIds]
  | cons n rest =>
      have : collectIds (removeMatches tid (n :: rest))
          = collectIds (removeMatchesN tid n) ++ collectIds (removeMatches tid rest) := by
        simp [removeMatches, collectIds_append]
      rw [this]
      simp only [collectIds]
      exact List.Sublist.append (collectIds_removeN_sublist tid n)
        (collectIds_remove_sublist tid rest)

end

/-- Matched nodes distribute over list concatenation. -/
theorem collectMatches_append (tid : String) (ns ms : List HNode) :
    collectMatches tid (ns ++ ms) = collectMatches tid ns ++ collectMatches tid ms := by
  induction ns with
  | nil => simp [collectMatches]
  | cons n rest ih => simp [collectMatches, ih]

mutual

/-- After detaching every match of an id selector, no match is left in a
subtree. -/
theorem collect_removeN_self (tid : String) (n : HNode) :
    collectMatches tid (removeMatchesN tid n) = [] := by
  cases n with
  | text s => simp [removeMatchesN, collectMatches, collectMatchesN]
  | elem t a c =>
      by_cases hm : matchesId tid (HNode.elem t a c) = true
      · simp [removeMatchesN, hm, collectMatches]
      · have hm2 : matchesId tid (HNode.elem t a (removeMatches tid c)) = false := by
          cases hx : getAttrL a "id" with
          | none => simp [matchesId, hx]
          | some v => simp [matchesId, hx] at hm ⊢; simpa [matchesId, hx] using hm
        simp [removeMatchesN, hm, collectMatches, collectMatchesN, hm2,
          collect_remove_self tid c]

/-- After detaching every match of an id selector, no match is left in the
document. -/
theorem collect_remove_self (tid : String) (ns : List HNode) :
    collectMatches tid (removeMatches tid ns) = [] := by
  cases ns with
  | nil => simp [removeMatches, collectMatches]
  | cons n rest =>
      have : collectMatches tid (removeMatches tid (n :: rest))
          = collectMatches tid (removeMatchesN tid n)
            ++ collectMatches tid (removeMatches tid rest) := by
        simp only [removeMatches]
        exact collectMatches_append tid _ _
      rw [this, collect_removeN_self tid n, collect_remove_self tid rest]
      rfl

end

mutual

/-- A subtree with no selector match is left intact by the removal. -/
theorem removeN_of_nomatch (tid : String) (n : HNode)
    (h : collectMatchesN tid n = []) : removeMatchesN tid n = [n] := by
  cases n with
  | text s => simp [removeMatchesN]
  | elem t a c =>
      by_cases hm : matchesId tid (HNode.elem t a c) = true
      · simp [collectMatchesN, hm] at h
      · have hc : collectMatches tid c = [] := by
          simpa [collectMatchesN, hm] using h
        simp [removeMatchesN, hm, remove_of_nomatch tid c hc]

/-- A document with no selector match is left intact by the removal. -/
theorem remove_of_nomatch (tid : String) (ns : List HNode)
    (h : collectMatches tid ns = []) : removeMatches tid ns = ns := by
  cases ns with
  | nil => simp [removeMatches]
  | cons n rest =>
      rw [collectMatches] at h
      rcases List.append_eq_nil.mp h with ⟨h1, h2⟩
      rw [removeMatches, removeN_of_nomatch tid n h1, remove_of_nomatch tid rest h2]
      rfl

end

mutual

/-- When a subtree holds at most one selector match, the captured nodes and
the remaining nodes together account for every node exactly once. -/
theorem conservationN (tid : String) (n : HNode)
    (h : (collectMatchesN tid n).length ≤ 1) :
    nodesCount (collectMatchesN tid n) + nodesCount (removeMatchesN tid n) = nodeCount n := by
  cases n with
  | text s => simp [collectMatchesN, removeMatchesN, nodesCount, nodeCount]
  | elem t a c =>
      by_cases hm : matchesId tid (HNode.elem t a c) = true
      · have hc : collectMatches tid c = [] := by
          have h2 := h
          simp [collectMatchesN, hm] at h2
          exact h2
        simp [collectMatchesN, hm, removeMatchesN, hc, nodesCount]
      · have hc : (collectMatches tid c).length ≤ 1 := by
          simpa [collectMatchesN, hm] using h
        have ih := conservationL tid c hc
        simp only [collectMatchesN, hm, Bool.false_eq_true, if_false, List.nil_append,
          removeMatchesN, nodesCount, nodeCount]
        omega

/-- When a document holds at most one selector match, the captured nodes
and the remaining document together account for every node exactly once. -/
theorem conservationL (tid : String) (ns : List HNode)
    (h : (collectMatches tid ns).length ≤ 1) :
    nodesCount (collectMatches tid ns) + nodesCount (removeMatches tid ns) = nodesCount ns := by
  cases ns with
  | nil => simp [collectMatches, removeMatches, nodesCount]
  | cons n rest =>
      have hsplit : (collectMatchesN tid n).length ≤ 1 ∧ (collectMatches tid rest).length ≤ 1 := by
        rw [collectMatches, List.length_append] at h
        omega
      have ih1 := conservationN tid n hsplit.1
      have ih2 := conservationL tid rest hsplit.2
      rw [collectMatches, removeMatches, nodesCount_append, nodesCount_append]
      simp only [nodesCount]
      omega

end

mutual

/-- Every id value occurring inside the captured subtrees occurs in the
original subtree. -/
theorem collectIds_collectN_subset (t2 : String) (n : HNode) (x : String)
    (hx : x ∈ collectIds (collectMatchesN t2 n)) : x ∈ collectIdsN n := by
  cases n with
  | text s => simp [collectMatchesN, collectIds] at hx
  | elem t a c =>
      by_cases hm : matchesId t2 (HNode.elem t a c) = true
      · rw [collectMatchesN, if_pos hm, collectIds_append] at hx
        rcases List.mem_append.mp hx with h1 | h2
        · simpa [collectIds] using h1
        · have : x ∈ collectIds c := collectIds_collect_subset t2 c x h2
          rw [collectIdsN]
          exact List.mem_append.mpr (Or.inr this)
      · rw [collectMatchesN, if_neg hm, List.nil_append] at hx
        have : x ∈ collectIds c := collectIds_collect_subset t2 c x hx
        rw [collectIdsN]
        exact List.mem_append.mpr (Or.inr this)

/-- Every id value occurring inside the captured nodes occurs in the
original document. -/
theorem collectIds_collect_subset (t2 : String) (ns : List HNode) (x : String)
    (hx : x ∈ collectIds (collectMatches t2 ns)) : x ∈ collectIds ns := by
  cases ns with
  | nil => simp [collectMatches, collectIds] at hx
  | cons n rest =>
      rw [collectMatches, collectIds_append] at hx
      rw [collectIds]
      rcases List.mem_append.mp hx with h1 | h2
      · exact List.mem_append.mpr (Or.inl (collectIds_collectN_subset t2 n x h1))
      · exact List.mem_append.mpr (Or.inr (collectIds_collect_subset t2 rest x h2))

end

/-- Removing the matches of one selector cannot create matches of another. -/
theorem countMatches_remove_le (tid t2 : String) (ns : List HNode) :
    countMatches tid (removeMatches t2 ns) ≤ countMatches tid ns := by
  unfold countMatches
  rw [countIds_eq, countIds_eq]
  exact (collectIds_remove_sublist t2 ns).count_le tid

/-- After extraction no element with the extracted id remains. -/
theorem countMatches_remove_self (tid : String) (ns : List HNode) :
    countMatches tid (removeMatches tid ns) = 0 := by
  unfold countMatches
  rw [collect_remove_self]
  rfl

/-- A zero match count means the captured node list is empty. -/
theorem collect_eq_nil (tid : String) (ns : List HNode)
    (h : countMatches tid ns = 0) : collectMatches tid ns = [] :=
  List.length_eq_zero.mp h

/-- An id absent from the document is absent from any captured content. -/
theorem countMatches_collect_zero (tid t2 : String) (ns : List HNode)
    (h : countMatches tid ns = 0) : countMatches tid (collectMatches t2 ns) = 0 := by
  unfold countMatches at h ⊢
  rw [countIds_eq] at h ⊢
  refine List.count_eq_zero.mpr fun hx => ?_
  exact absurd (collectIds_collect_subset t2 ns tid hx) (List.count_eq_zero.mp h)

/-- Removal preserves distinctness of the document id values. -/
theorem nodup_remove (t2 : String) (ns : List HNode)
    (h : (collectIds ns).Nodup) : (collectIds (removeMatches t2 ns)).Nodup :=
  h.sublist (collectIds_remove_sublist t2 ns)

/-- Distinct id values bound every selector match count by one. -/
theorem countMatches_le_one_of_nodup (tid : String) (ns : List HNode)
    (h : (collectIds ns).Nodup) : countMatches tid ns ≤ 1 := by
  unfold countMatches
  rw [countIds_eq]
  exact List.nodup_iff_count_le_one.mp h tid

/-- Sibling assignment keeps the anchor id. -/
theorem withPN_titleId (p n : Option Nat) (c : Chapter) :
    (c.withPN p n).titleId = c.titleId := by
  cases c
  rfl

/-- Sibling assignment keeps the content. -/
theorem withPN_content (p n : Option Nat) (c : Chapter) :
    (c.withPN p n).content = c.content := by
  cases c
  rfl

/-- Sibling assignment keeps the children. -/
theorem withPN_childList (p n : Option Nat) (c : Chapter) :
    (c.withPN p n).childList = c.childList := by
  cases c
  rfl

/-- The previous reference after sibling assignment. -/
theorem withPN_previous (p n : Option Nat) (c : Chapter) :
    (c.withPN p n).previous = p := by
  cases c
  rfl

/-- The next reference after sibling assignment. -/
theorem withPN_nxt (p n : Option Nat) (c : Chapter) :
    (c.withPN p n).nxt = n := by
  cases c
  rfl

/-- Replacing the content leaves exactly the content replaced. -/
theorem withContent_content (co : List HNode) (c : Chapter) :
    (c.withContent co).content = co := by
  cases c
  rfl

/-- A flattened chapter is the chapter followed by its flattened children. -/
theorem flattenOne_eq (c : Chapter) :
    flattenOne c = c :: flattenChapters c.childList := by
  cases c
  rfl

/-- Flattening a chapter group unfolds at a cons cell. -/
theorem flattenChapters_cons (c : Chapter) (rest : List Chapter) :
    flattenChapters (c :: rest) = flattenOne c ++ flattenChapters rest := rfl

/-- Content counts add over flat chapter list concatenation. -/
theorem contentsCount_append (xs ys : List Chapter) :
    contentsCount (xs ++ ys) = contentsCount xs + contentsCount ys := by
  induction xs with
  | nil => simp [contentsCount]
  | cons c rest ih => simp [contentsCount, ih]; omega

/-- Sibling assignment keeps the group length. -/
theorem applySib_length (len j : Nat) (cs : List Chapter) :
    (applySib len j cs).length = cs.length := by
  induction cs generalizing j with
  | nil => simp [applySib]
  | cons c rest ih => simp [applySib, ih]

/-- The group member at a position after sibling assignment. -/
theorem applySib_getElem (len j : Nat) (cs : List Chapter) (i : Nat) :
    (applySib len j cs)[i]? = (cs[i]?).map
      (fun c => c.withPN (if 0 < j + i then some (j + i - 1) else none)
        (if j + i + 1 < len then some (j + i + 1) else none)) := by
  induction cs generalizing j i with
  | nil => simp [applySib]
  | cons c rest ih =>
      cases i with
      | zero => simp [applySib]
      | succ m =>
          have e : j + 1 + m = j + (m + 1) := by omega
          rw [applySib]
          simp only [List.getElem?_cons_succ]
          rw [ih (j + 1) m, e]

/-- Every member of a sibling-assigned group is a member of the group with
only its sibling references changed. -/
theorem mem_applySib (len j : Nat) (cs : List Chapter) :
    ∀ c ∈ applySib len j cs, ∃ c0 ∈ cs,
      c.titleId = c0.titleId ∧ c.content = c0.content ∧ c.childList = c0.childList := by
  induction cs generalizing j with
  | nil => simp [applySib]
  | cons c0 rest ih =>
      intro c hc
      rw [applySib] at hc
      rcases List.mem_cons.mp hc with rfl | htail
      · exact ⟨c0, List.mem_cons_self c0 rest,
          withPN_titleId _ _ c0, withPN_content _ _ c0, withPN_childList _ _ c0⟩
      · rcases ih (j + 1) c htail with ⟨c1, hm, he⟩
        exact ⟨c1, List.mem_cons_of_mem c0 hm, he⟩

/-- Every member of the flattening of a sibling-assigned group corresponds
to a member of the flattening of the group with the same id, content and
children. -/
theorem flatten_applySib_fields (len j : Nat) (cs : List Chapter) :
    ∀ ch ∈ flattenChapters (applySib len j cs), ∃ ch0 ∈ flattenChapters cs,
      ch.titleId = ch0.titleId ∧ ch.content = ch0.content ∧ ch.childList = ch0.childList := by
  induction cs generalizing j with
  | nil => simp [applySib, flattenChapters]
  | cons c rest ih =>
      intro ch hch
      rw [applySib, flattenChapters_cons] at hch
      rcases List.mem_append.mp hch with h1 | h2
      · rw [flattenOne_eq, withPN_childList] at h1
        rcases List.mem_cons.mp h1 with rfl | hdeep
        · refine ⟨c, ?_, withPN_titleId _ _ c, withPN_content _ _ c, withPN_childList _ _ c⟩
          rw [flattenChapters_cons, flattenOne_eq]
          exact List.mem_append.mpr (Or.inl (List.mem_cons_self _ _))
        · refine ⟨ch, ?_, rfl, rfl, rfl⟩
          rw [flattenChapters_cons, flattenOne_eq]
          exact List.mem_append.mpr (Or.inl (List.mem_cons_of_mem _ hdeep))
      · rcases ih (j + 1) ch h2 with ⟨ch0, hm, he⟩
        refine ⟨ch0, ?_, he.1, he.2.1, he.2.2⟩
        rw [flattenChapters_cons]
        exact List.mem_append.mpr (Or.inr hm)

/-- Sibling assignment does not change the total content size of the
flattened group. -/
theorem contentsCount_flatten_applySib (len j : Nat) (cs : List Chapter) :
    contentsCount (flattenChapters (applySib len j cs)) = contentsCount (flattenChapters cs) := by
  induction cs generalizing j with
  | nil => simp [applySib]
  | cons c rest ih =>
      rw [applySib, flattenChapters_cons, flattenChapters_cons, contentsCount_append,
        contentsCount_append, flattenOne_eq, flattenOne_eq, withPN_childList]
      simp only [contentsCount, withPN_content]
      rw [ih (j + 1)]

mutual

/-- Extraction only removes: the id values of the document threaded out of
one entry form a sublist of the incoming ones. -/
theorem parseEntry_ids_sublist (e : TocEntry) (lv n : Nat) (doc : List HNode) :
    (collectIds (parseEntry e lv n doc).2).Sublist (collectIds doc) := by
  cases e with
  | mk ty tid ti subs =>
      have h1 := parseEntries_ids_sublist subs (lv + 1) 1 doc
      have h2 := collectIds_remove_sublist tid (parseEntries subs (lv + 1) 1 doc).2
      simpa [parseEntry, extractNodes] using h2.trans h1

/-- Extraction only removes, over a whole level. -/
theorem parseEntries_ids_sublist (es : List TocEntry) (lv n : Nat) (doc : List HNode) :
    (collectIds (parseEntries es lv n doc).2).Sublist (collectIds doc) := by
  cases es with
  | nil => simp [parseEntries]
  | cons e rest =>
      have h1 := parseEntry_ids_sublist e lv n doc
      have h2 := parseEntries_ids_sublist rest lv (n + 1) (parseEntry e lv n doc).2
      simpa [parseEntries] using h2.trans h1

end

/-- Walking a level cannot increase any selector match count. -/
theorem parseEntries_count_le (tid : String) (es : List TocEntry) (lv n : Nat)
    (doc : List HNode) :
    countMatches tid (parseEntries es lv n doc).2 ≤ countMatches tid doc := by
  unfold countMatches
  rw [countIds_eq, countIds_eq]
  exact (parseEntries_ids_sublist es lv n doc).count_le tid

/-- Walking one entry cannot increase any selector match count. -/
theorem parseEntry_count_le (tid : String) (e : TocEntry) (lv n : Nat)
    (doc : List HNode) :
    countMatches tid (parseEntry e lv n doc).2 ≤ countMatches tid doc := by
  unfold countMatches
  rw [countIds_eq, countIds_eq]
  exact (parseEntry_ids_sublist e lv n doc).count_le tid

/-- Walking a level keeps the document id values distinct. -/
theorem parseEntries_nodup (es : List TocEntry) (lv n : Nat) (doc : List HNode)
    (h : (collectIds doc).Nodup) : (collectIds (parseEntries es lv n doc).2).Nodup :=
  h.sublist (parseEntries_ids_sublist es lv n doc)

/-- Walking one entry keeps the document id values distinct. -/
theorem parseEntry_nodup (e : TocEntry) (lv n : Nat) (doc : List HNode)
    (h : (collectIds doc).Nodup) : (collectIds (parseEntry e lv n doc).2).Nodup :=
  h.sublist (parseEntry_ids_sublist e lv n doc)

/-- After one entry is walked, its own anchor id has no match left in the
threaded document. -/
theorem parseEntry_tid_zero (e : TocEntry) (lv n : Nat) (doc : List HNode) :
    countMatches (parseEntry e lv n doc).1.titleId (parseEntry e lv n doc).2 = 0 := by
  cases e with
  | mk ty tid ti subs =>
      simp [parseEntry, extractNodes, Chapter.titleId, countMatches_remove_self]

/-- After a level is walked, none of the anchor ids of its chapters has a
match left in the threaded document. -/
theorem parseEntries_tids_zero (es : List TocEntry) (lv n : Nat) (doc : List HNode) :
    ∀ ch ∈ (parseEntries es lv n doc).1,
      countMatches ch.titleId (parseEntries es lv n doc).2 = 0 := by
  induction es generalizing n doc with
  | nil => simp [parseEntries]
  | cons e rest ih =>
      intro ch hch
      simp only [parseEntries, List.mem_cons] at hch ⊢
      rcases hch with rfl | htail
      · have h0 := parseEntry_tid_zero e lv n doc
        have hle := parseEntries_count_le (parseEntry e lv n doc).1.titleId rest lv (n + 1)
          (parseEntry e lv n doc).2
        omega
      · exact ih (n + 1) (parseEntry e lv n doc).2 ch htail

mutual

/-- A chapter anywhere under one walked entry whose anchor id never had a
match in the incoming document ends up with empty content. -/
theorem parseEntry_empty_content (e : TocEntry) (lv n : Nat) (doc : List HNode) :
    ∀ ch ∈ flattenOne (parseEntry e lv n doc).1,
      countMatches ch.titleId doc = 0 → ch.content = [] := by
  cases e with
  | mk ty tid ti subs =>
      intro ch hch hz
      simp only [parseEntry, extractNodes] at hch
      rw [flattenOne_eq] at hch
      rcases List.mem_cons.mp hch with rfl | hdeep
      · simp only [Chapter.titleId] at hz
        simp only [Chapter.content]
        have hle := parseEntries_count_le tid subs (lv + 1) 1 doc
        have hz2 : countMatches tid (parseEntries subs (lv + 1) 1 doc).2 = 0 := by omega
        exact collect_eq_nil _ _ hz2
      · simp only [Chapter.childList, setSiblings] at hdeep
        rcases flatten_applySib_fields _ _ _ ch hdeep with ⟨ch0, hm, ht, hc, _⟩
        rw [ht] at hz
        rw [hc]
        exact parseEntries_empty_content subs (lv + 1) 1 doc ch0 hm hz

/-- A chapter anywhere under a walked level whose anchor id never had a
match in the incoming document ends up with empty content. -/
theorem parseEntries_empty_content (es : List TocEntry) (lv n : Nat) (doc : List HNode) :
    ∀ ch ∈ flattenChapters (parseEntries es lv n doc).1,
      countMatches ch.titleId doc = 0 → ch.content = [] := by
  cases es with
  | nil => simp [parseEntries, flattenChapters]
  | cons e rest =>
      intro ch hch hz
      simp only [parseEntries] at hch
      rw [flattenChapters_cons] at hch
      rcases List.mem_append.mp hch with h1 | h2
      · exact parseEntry_empty_content e lv n doc ch h1 hz
      · have hz2 : countMatches ch.titleId (parseEntry e lv n doc).2 = 0 := by
          have := parseEntry_count_le ch.titleId e lv n doc
          omega
        exact parseEntries_empty_content rest lv (n + 1) (parseEntry e lv n doc).2 ch h2 hz2

end

mutual

/-- For every chapter under one walked entry, the anchor ids of its direct
children have no match inside the content it captured: the children were
extracted out of the shared document first. -/
theorem parseEntry_children_zero (e : TocEntry) (lv n : Nat) (doc : List HNode) :
    ∀ ch ∈ flattenOne (parseEntry e lv n doc).1, ∀ cc ∈ ch.childList,
      countMatches cc.titleId ch.content = 0 := by
  cases e with
  | mk ty tid ti subs =>
      intro ch hch cc hcc
      simp only [parseEntry, extractNodes] at hch
      rw [flattenOne_eq] at hch
      rcases List.mem_cons.mp hch with rfl | hdeep
      · simp only [Chapter.childList, setSiblings] at hcc
        simp only [Chapter.content]
        rcases mem_applySib _ _ _ cc hcc with ⟨cc0, hm, ht, _, _⟩
        rw [ht]
        have hz := parseEntries_tids_zero subs (lv + 1) 1 doc cc0 hm
        exact countMatches_collect_zero _ _ _ hz
      · simp only [Chapter.childList, setSiblings] at hdeep
        rcases flatten_applySib_fields _ _ _ ch hdeep with ⟨ch0, hm, _, hc, hcl⟩
        rw [hcl] at hcc
        rw [hc]
        exact parseEntries_children_zero subs (lv + 1) 1 doc ch0 hm cc hcc

/-- For every chapter under a walked level, the anchor ids of its direct
children have no match inside the content it captured. -/
theorem parseEntries_children_zero (es : List TocEntry) (lv n : Nat) (doc : List HNode) :
    ∀ ch ∈ flattenChapters (parseEntries es lv n doc).1, ∀ cc ∈ ch.childList,
      countMatches cc.titleId ch.content = 0 := by
  cases es with
  | nil => simp [parseEntries, flattenChapters]
  | cons e rest =>
      intro ch hch
      simp only [parseEntries] at hch
      rw [flattenChapters_cons] at hch
      rcases List.mem_append.mp hch with h1 | h2
      · exact parseEntry_children_zero e lv n doc ch h1
      · exact parseEntries_children_zero rest lv (n + 1) (parseEntry e lv n doc).2 ch h2

end

mutual

/-- Conservation over one walked entry: when the document id values are
distinct, the nodes captured under the entry plus the nodes of the
threaded-out document account for the incoming document exactly. -/
theorem parseEntry_conservation (e : TocEntry) (lv n : Nat) (doc : List HNode)
    (h : (collectIds doc).Nodup) :
    contentsCount (flattenOne (parseEntry e lv n doc).1)
      + nodesCount (parseEntry e lv n doc).2 = nodesCount doc := by
  cases e with
  | mk ty tid ti subs =>
      have ihsub := parseEntries_conservation subs (lv + 1) 1 doc h
      have hnod := parseEntries_nodup subs (lv + 1) 1 doc h
      have hle := countMatches_le_one_of_nodup tid _ hnod
      have hcons := conservationL tid (parseEntries subs (lv + 1) 1 doc).2 hle
      simp only [parseEntry, extractNodes]
      rw [flattenOne_eq]
      simp only [Chapter.childList, Chapter.content, contentsCount, setSiblings]
      rw [contentsCount_flatten_applySib]
      omega

/-- Conservation over a walked level. -/
theorem parseEntries_conservation (es : List TocEntry) (lv n : Nat) (doc : List HNode)
    (h : (collectIds doc).Nodup) :
    contentsCount (flattenChapters (parseEntries es lv n doc).1)
      + nodesCount (parseEntries es lv n doc).2 = nodesCount doc := by
  cases es with
  | nil => simp [parseEntries, flattenChapters, contentsCount]
  | cons e rest =>
      have ih1 := parseEntry_conservation e lv n doc h
      have ih2 := parseEntries_conservation rest lv (n + 1) (parseEntry e lv n doc).2
        (parseEntry_nodup e lv n doc h)
      simp only [parseEntries]
      rw [flattenChapters_cons, contentsCount_append]
      omega

end

/-- A text node contains no matching element. -/
theorem anyDescN_text (p : HNode → Bool) (s : String) : anyDescN p (HNode.text s) = false := rfl

/-- Matching of a subtree splits into the root and its children. -/
theorem anyDescN_elem (p : HNode → Bool) (t : String) (a : List (String × String))
    (c : List HNode) :
    anyDescN p (HNode.elem t a c) = (p (HNode.elem t a c) || anyDescP p c) := by
  unfold anyDescN anyDescP firstDescN
  by_cases h : p (HNode.elem t a c) = true <;> simp [h]

/-- The empty forest contains no matching element. -/
theorem anyDescP_nil (p : HNode → Bool) : anyDescP p [] = false := rfl

/-- Matching of a forest splits into the head subtree and the rest. -/
theorem anyDescP_cons (p : HNode → Bool) (n : HNode) (rest : List HNode) :
    anyDescP p (n :: rest) = (anyDescN p n || anyDescP p rest) := by
  cases h : firstDescN p n with
  | none => simp [anyDescP, anyDescN, firstDescP, h]
  | some r => simp [anyDescP, anyDescN, firstDescP, h]

/-- Rewriting the first match is the identity when nothing matches. -/
theorem mapFirstDescP_id (p : HNode → Bool) (f : HNode → HNode) (ns : List HNode)
    (h : anyDescP p ns = false) : mapFirstDescP p f ns = ns := by
  induction ns with
  | nil => simp [mapFirstDescP]
  | cons n rest ih =>
      rw [anyDescP_cons] at h
      simp only [Bool.or_eq_false_iff] at h
      simp [mapFirstDescP, h.1, ih h.2]

/-- The key vanishes from the attribute list it was removed from. -/
theorem getAttrL_removeAttrL (a : List (String × String)) (k : String) :
    getAttrL (removeAttrL a k) k = none := by
  induction a with
  | nil => simp [removeAttrL, getAttrL]
  | cons kv rest ih =>
      rcases kv with ⟨k1, v1⟩
      by_cases h : k1 = k
      · simp [removeAttrL, h, ih]
      · simp [removeAttrL, h, getAttrL, ih]

mutual

/-- Setting the first header id does not change which tags occur in a
subtree. -/
theorem anyDescN_setHeaderId (q v : String) (n : HNode) :
    anyDescN (tagP q)
      (mapFirstDescN isHeaderNode
        (fun m => HNode.elem m.tag (setAttrL m.attrs "id" v) m.children) n)
      = anyDescN (tagP q) n := by
  cases n with
  | text s => simp [mapFirstDescN]
  | elem t a c =>
      by_cases h : isHeaderNode (HNode.elem t a c) = true
      · simp only [mapFirstDescN, h, if_true]
        show anyDescN (tagP q) (HNode.elem t (setAttrL a "id" v) c) = _
        rw [anyDescN_elem, anyDescN_elem]
        simp [tagP, HNode.tag]
      · simp only [mapFirstDescN, h, Bool.false_eq_true, if_false]
        rw [anyDescN_elem, anyDescN_elem, anyDescPMapHeader q v c]
        simp [tagP, HNode.tag]

/-- Setting the first header id does not change which tags occur in a
forest. -/
theorem anyDescPMapHeader (q v : String) (ns : List HNode) :
    anyDescP (tagP q)
      (mapFirstDescP isHeaderNode
        (fun m => HNode.elem m.tag (setAttrL m.attrs "id" v) m.children) ns)
      = anyDescP (tagP q) ns := by
  cases ns with
  | nil => simp [mapFirstDescP]
  | cons n rest =>
      by_cases h : anyDescN isHeaderNode n = true
      · simp only [mapFirstDescP, h, if_true]
        rw [anyDescP_cons, anyDescP_cons, anyDescN_setHeaderId q v n]
      · simp only [mapFirstDescP, h, Bool.false_eq_true, if_false]
        rw [anyDescP_cons, anyDescP_cons, anyDescPMapHeader q v rest]

end

/-- Setting the first header id keeps a forest free of a given tag. -/
theorem anyDescP_setHeaderId (q v : String) (ns : List HNode) :
    anyDescP (tagP q) (setFirstHeaderIdAttr v ns) = anyDescP (tagP q) ns :=
  anyDescPMapHeader q v ns

/-- The traversal of setTitlesId leaves a forest without section elements
unchanged. -/
theorem setIdsList_id (ns : List HNode) (h : anyDescP (tagP "section") ns = false) :
    setIdsList ns = ns := by
  induction ns using setIdsList.induct with
  | case1 => simp [setIdsList]
  | case2 s rest ih =>
      rw [anyDescP_cons, anyDescN_text] at h
      simp only [Bool.false_or] at h
      simp [setIdsList, ih h]
  | case3 a c rest ih1 ih2 =>
      exfalso
      rw [anyDescP_cons, anyDescN_elem] at h
      simp [tagP, HNode.tag] at h
  | case4 t a c rest hsec ih1 ih2 =>
      rw [anyDescP_cons, anyDescN_elem] at h
      simp only [tagP, HNode.tag, Bool.or_eq_false_iff] at h
      simp [setIdsList, hsec, ih1 h.1.2, ih2 h.2]

/-- The traversal of setTitlesId preserves the node count. -/
theorem nodesCount_setIdsList (ns : List HNode) :
    nodesCount (setIdsList ns) = nodesCount ns := by
  induction ns using setIdsList.induct with
  | case1 => simp [setIdsList]
  | case2 s rest ih => simp [setIdsList, nodesCount, ih]
  | case3 a c rest ih1 ih2 =>
      simp [setIdsList, nodesCount, nodeCount, ih1, ih2, nodesCount_sectionRule]
  | case4 t a c rest hsec ih1 ih2 =>
      simp [setIdsList, hsec, nodesCount, nodeCount, ih1, ih2]

/-- setTitlesId does not change the total content size. -/
theorem contentsCount_setTitlesId (cs : List Chapter) :
    contentsCount (setTitlesId cs) = contentsCount cs := by
  induction cs with
  | nil => simp [setTitlesId, contentsCount]
  | cons c rest ih =>
      simp only [setTitlesId, List.map_cons, contentsCount, withContent_content,
        nodesCount_setIdsList]
      simp only [setTitlesId] at ih
      rw [ih]

/-- One chapter per entry of the level, whatever the document. -/
theorem parseEntries_length (es : List TocEntry) (lv n : Nat) (doc : List HNode) :
    (parseEntries es lv n doc).1.length = es.length := by
  induction es generalizing n doc with
  | nil => simp [parseEntries]
  | cons e rest ih => simp [parseEntries, ih]

/-- The group member at a position after the sibling pass. -/
theorem setSiblings_getElem (cs : List Chapter) (i : Nat) :
    (setSiblings cs)[i]? = (cs[i]?).map
      (fun c => c.withPN (if 0 < i then some (i - 1) else none)
        (if i + 1 < cs.length then some (i + 1) else none)) := by
  have h := applySib_getElem cs.length 0 cs i
  simpa [setSiblings] using h

/-- The sibling pass keeps the group length. -/
theorem setSiblings_length (cs : List Chapter) : (setSiblings cs).length = cs.length := by
  simp [setSiblings, applySib_length]

/-- C1 (counterexample): for the nested table of contents (chapter c1 with
sub-entry s1) over the body div#c1 [ A, div#s1 [B] ], the extracted
fragments render to div#c1 [A] and div#s1 [B] with an empty residual, and
no concatenation of them in either order reconstructs the original body:
the nested fragment was excised from its parent fragment, so the claim
that the fragments concatenated in document order rebuild the body fails. -/
theorem claim1_concat_cex :
    ((flattenChapters (parseList [TocEntry.mk none "c1" "Chapter 1"
          [TocEntry.mk none "s1" "Section 1.1" []]] 0
        [HNode.elem "div" [("id", "c1")]
          [HNode.text "A", HNode.elem "div" [("id", "s1")] [HNode.text "B"]]]).1).map
      (fun c => renderL c.content) = ["<div id=\"c1\">A</div>", "<div id=\"s1\">B</div>"])
    ∧ renderL (parseList [TocEntry.mk none "c1" "Chapter 1"
          [TocEntry.mk none "s1" "Section 1.1" []]] 0
        [HNode.elem "div" [("id", "c1")]
          [HNode.text "A", HNode.elem "div" [("id", "s1")] [HNode.text "B"]]]).2 = ""
    ∧ "<div id=\"c1\">A</div>" ++ "<div id=\"s1\">B</div>" ++ ""
        ≠ renderL [HNode.elem "div" [("id", "c1")]
          [HNode.text "A", HNode.elem "div" [("id", "s1")] [HNode.text "B"]]]
    ∧ "<div id=\"s1\">B</div>" ++ "<div id=\"c1\">A</div>" ++ ""
        ≠ renderL [HNode.elem "div" [("id", "c1")]
          [HNode.text "A", HNode.elem "div" [("id", "s1")] [HNode.text "B"]]] :=
  ⟨by decide, by decide, by decide, by decide⟩

/-- C1 (amended): for every input whose id attribute values are pairwise
distinct, the extracted content fragments of all chapters together with
the residual front-matter content partition the nodes of the document
body: the total node count of the flattened chapter contents plus the
residual node count equals the node count of the body, so no element is
duplicated and none is omitted.  (String concatenation of the fragments
does not in general rebuild the body; see the counterexample.) -/
theorem claim1_partition_conservation (toc : List TocEntry) (doc : List HNode)
    (h : (collectIds doc).Nodup) :
    contentsCount (parseChapters toc doc).1 + nodesCount (parseChapters toc doc).2
      = nodesCount doc := by
  simp only [parseChapters, parseList]
  rw [contentsCount_setTitlesId, nodesCount_setIdsList]
  simp only [setSiblings]
  rw [contentsCount_flatten_applySib]
  exact parseEntries_conservation toc 0 1 doc h

/-- C1 (witness): the conservation theorem applied to the nested two-entry
table of contents over a four-node body. -/
theorem claim1_partition_conservation_w :
    (collectIds [HNode.elem "div" [("id", "c1")]
        [HNode.text "A", HNode.elem "div" [("id", "s1")] [HNode.text "B"]]]).Nodup
    ∧ contentsCount (parseChapters [TocEntry.mk none "c1" "Chapter 1"
          [TocEntry.mk none "s1" "Section 1.1" []]]
        [HNode.elem "div" [("id", "c1")]
          [HNode.text "A", HNode.elem "div" [("id", "s1")] [HNode.text "B"]]]).1
      + nodesCount (parseChapters [TocEntry.mk none "c1" "Chapter 1"
          [TocEntry.mk none "s1" "Section 1.1" []]]
        [HNode.elem "div" [("id", "c1")]
          [HNode.text "A", HNode.elem "div" [("id", "s1")] [HNode.text "B"]]]).2
      = nodesCount [HNode.elem "div" [("id", "c1")]
          [HNode.text "A", HNode.elem "div" [("id", "s1")] [HNode.text "B"]]] :=
  ⟨by decide, claim1_partition_conservation _ _ (by decide)⟩

/-- C2: for every TOC tree and document, every chapter of the flattened
result and every direct child of it, the child anchor id matches no
element inside the parent captured content: all descendant extractions
ran to completion on the shared document before the parent content was
captured. -/
theorem claim2_children_extracted_first (toc : List TocEntry) (level : Nat)
    (doc : List HNode) :
    ∀ ch ∈ flattenChapters (parseList toc level doc).1, ∀ cc ∈ ch.childList,
      countMatches cc.titleId ch.content = 0 := by
  intro ch hch cc hcc
  simp only [parseList, setSiblings] at hch
  rcases flatten_applySib_fields _ _ _ ch hch with ⟨ch0, hm, _, hc, hcl⟩
  rw [hcl] at hcc
  rw [hc]
  exact parseEntries_children_zero toc level 1 doc ch0 hm cc hcc

/-- C2 (witness): in the nested scenario the chapter captured
div#c1 [A] while its child owns the anchor s1, which indeed has no match
in the parent content. -/
theorem claim2_children_extracted_first_w :
    countMatches
      (Chapter.mk none "s1" "Section 1.1" 1 1
        [HNode.elem "div" [("id", "s1")] [HNode.text "B"]] none none []).titleId
      (Chapter.mk none "c1" "Chapter 1" 0 1
        [HNode.elem "div" [("id", "c1")] [HNode.text "A"]] none none
        [Chapter.mk none "s1" "Section 1.1" 1 1
          [HNode.elem "div" [("id", "s1")] [HNode.text "B"]] none none []]).content = 0 :=
  claim2_children_extracted_first
    [TocEntry.mk none "c1" "Chapter 1" [TocEntry.mk none "s1" "Section 1.1" []]] 0
    [HNode.elem "div" [("id", "c1")]
      [HNode.text "A", HNode.elem "div" [("id", "s1")] [HNode.text "B"]]]
    _ (List.Mem.head _) _ (List.Mem.head _)

/-- C7: a TOC entry whose anchor id matches nothing yields a chapter with
empty content, no failure occurs, and processing continues: the walker
returns exactly one chapter per entry at every level regardless of
matches. -/
theorem claim7_missing_anchor (toc : List TocEntry) (level : Nat) (doc : List HNode) :
    (parseList toc level doc).1.length = toc.length
    ∧ ∀ ch ∈ flattenChapters (parseList toc level doc).1,
        countMatches ch.titleId doc = 0 → ch.content = [] := by
  constructor
  · simp only [parseList]
    rw [setSiblings_length, parseEntries_length]
  · intro ch hch hz
    simp only [parseList, setSiblings] at hch
    rcases flatten_applySib_fields _ _ _ ch hch with ⟨ch0, hm, ht, hc, _⟩
    rw [ht] at hz
    rw [hc]
    exact parseEntries_empty_content toc level 1 doc ch0 hm hz

/-- C7 (witness): the entry zz matches nothing in a document holding only
div#c1; its chapter content is empty while the sibling c1 still got
processed (the group has one chapter per entry). -/
theorem claim7_missing_anchor_w :
    (Chapter.mk none "zz" "Z" 0 1 ([] : List HNode) none (some 1) []).content = [] :=
  (claim7_missing_anchor [TocEntry.mk none "zz" "Z" [], TocEntry.mk none "c1" "C" []] 0
    [HNode.elem "div" [("id", "c1")] [HNode.text "A"]]).2 _ (List.Mem.head _) (by decide)

/-- C8: after a sibling group is fully materialized by parseList, the
sibling references form a valid doubly linked chain over the group: the
chapter at position i points next to position i + 1, whose previous
reference points back to i; the first chapter has no previous reference
and the last chapter has no next reference.  Sibling references are
positions in the group, the arena form of the object references of the
source. -/
theorem claim8_sibling_chain (toc : List TocEntry) (level : Nat) (doc : List HNode) :
    (∀ i ch ch2, (parseList toc level doc).1[i]? = some ch →
        (parseList toc level doc).1[i + 1]? = some ch2 →
        ch.nxt = some (i + 1) ∧ ch2.previous = some i)
    ∧ (∀ ch0, (parseList toc level doc).1[0]? = some ch0 → ch0.previous = none)
    ∧ (∀ chl,
        (parseList toc level doc).1[(parseList toc level doc).1.length - 1]? = some chl →
        chl.nxt = none) := by
  have key : ∀ cs : List Chapter, ∀ i ch, (setSiblings cs)[i]? = some ch →
      ch.previous = (if 0 < i then some (i - 1) else none)
        ∧ ch.nxt = (if i + 1 < cs.length then some (i + 1) else none)
        ∧ i < cs.length := by
    intro cs i ch hch
    rw [setSiblings_getElem] at hch
    cases hcs : cs[i]? with
    | none => rw [hcs] at hch; simp at hch
    | some c0 =>
        rw [hcs] at hch
        have hlt : i < cs.length := by
          by_contra hge
          rw [List.getElem?_eq_none (by omega)] at hcs
          exact Option.noConfusion hcs
        simp only [Option.map_some'] at hch
        cases hch
        exact ⟨withPN_previous _ _ _, withPN_nxt _ _ _, hlt⟩
  simp only [parseList]
  refine ⟨?_, ?_, ?_⟩
  · intro i ch ch2 h1 h2
    rcases key _ i ch h1 with ⟨hp1, hn1, hl1⟩
    rcases key _ (i + 1) ch2 h2 with ⟨hp2, hn2, hl2⟩
    constructor
    · rw [hn1, if_pos hl2]
    · rw [hp2, if_pos (by omega)]
      simp
  · intro ch0 h0
    rcases key _ 0 ch0 h0 with ⟨hp, _, _⟩
    rw [hp, if_neg (by omega)]
  · intro chl hl
    rw [setSiblings_length] at hl
    rcases key _ ((parseEntries toc level 1 doc).1.length - 1) chl hl with ⟨_, hn, hlt⟩
    rw [hn, if_neg (by omega)]

/-- C8 (witness): the chain theorem applied to a two-entry level: the
first chapter points next to 1, the second points back to 0, the first
has no previous reference and the second no next reference. -/
theorem claim8_sibling_chain_w :
    ((parseList [TocEntry.mk none "a" "A" [], TocEntry.mk none "b" "B" []] 0 []).1[0]?
        = some (Chapter.mk none "a" "A" 0 1 [] none (some 1) []))
    ∧ ((parseList [TocEntry.mk none "a" "A" [], TocEntry.mk none "b" "B" []] 0 []).1[1]?
        = some (Chapter.mk none "b" "B" 0 2 [] (some 0) none []))
    ∧ (Chapter.mk none "a" "A" 0 1 [] none (some 1) []).nxt = some 1
    ∧ (Chapter.mk none "b" "B" 0 2 [] (some 0) none []).previous = some 0
    ∧ (Chapter.mk none "a" "A" 0 1 [] none (some 1) []).previous = none := by
  refine ⟨rfl, rfl, ?_, ?_, ?_⟩
  · exact ((claim8_sibling_chain [TocEntry.mk none "a" "A" [], TocEntry.mk none "b" "B" []]
      0 []).1 0 _ _ rfl rfl).1
  · exact ((claim8_sibling_chain [TocEntry.mk none "a" "A" [], TocEntry.mk none "b" "B" []]
      0 []).1 0 _ _ rfl rfl).2
  · exact (claim8_sibling_chain [TocEntry.mk none "a" "A" [], TocEntry.mk none "b" "B" []]
      0 []).2.1 _ rfl

/-- C9: on a content fragment consisting of a section container (with no
nested section), the anchor reconciler moves the id of the container onto
the first header descendant exactly when the container carries an id and
that header lacks one; when the container has no (truthy) id, or the
header already has a non-empty id, both are left untouched. -/
theorem claim9_section_id_move (a : List (String × String)) (c : List HNode)
    (hns : anyDescP (tagP "section") c = false) :
    (∀ sid, getAttrL a "id" = some sid → sid ≠ "" → firstHeaderIdAttr c = some none →
        setIdsList [HNode.elem "section" a c]
          = [HNode.elem "section" (removeAttrL a "id") (setFirstHeaderIdAttr sid c)])
    ∧ (truthyS (getAttrL a "id") = false →
        setIdsList [HNode.elem "section" a c] = [HNode.elem "section" a c])
    ∧ (∀ sid hid, getAttrL a "id" = some sid → firstHeaderIdAttr c = some (some hid) →
        hid ≠ "" → setIdsList [HNode.elem "section" a c] = [HNode.elem "section" a c]) := by
  refine ⟨?_, ?_, ?_⟩
  · intro sid hga hsne hfh
    have hsec : sectionRule a c = (removeAttrL a "id", setFirstHeaderIdAttr sid c) := by
      simp [sectionRule, hga, hfh, hsne]
    have hid2 : setIdsList (setFirstHeaderIdAttr sid c) = setFirstHeaderIdAttr sid c := by
      refine setIdsList_id _ ?_
      rw [anyDescP_setHeaderId]
      exact hns
    simp only [setIdsList, hsec, if_pos trivial]
    rw [hid2]
  · intro htr
    have hsec : sectionRule a c = (a, c) := by
      cases hga : getAttrL a "id" with
      | none => simp [sectionRule, hga]
      | some s =>
          rw [hga] at htr
          simp [truthyS] at htr
          simp [sectionRule, hga, htr]
    simp only [setIdsList, hsec, if_pos trivial]
    rw [setIdsList_id c hns]
  · intro sid hid hga hfh hhne
    have hsec : sectionRule a c = (a, c) := by
      by_cases hs : sid = ""
      · simp [sectionRule, hga, hs]
      · simp [sectionRule, hga, hfh, hs, hhne]
    simp only [setIdsList, hsec, if_pos trivial]
    rw [setIdsList_id c hns]

/-- C9 (witness): a section with id s9 whose first header h2 lacks an id:
the id moves onto the header and leaves the container. -/
theorem claim9_section_id_move_w :
    setIdsList [HNode.elem "section" [("id", "s9")]
        [HNode.elem "p" [] [HNode.text "t"], HNode.elem "h2" [] [HNode.text "T"]]]
      = [HNode.elem "section" (removeAttrL [("id", "s9")] "id")
          (setFirstHeaderIdAttr "s9"
            [HNode.elem "p" [] [HNode.text "t"], HNode.elem "h2" [] [HNode.text "T"]])] :=
  (claim9_section_id_move [("id", "s9")]
      [HNode.elem "p" [] [HNode.text "t"], HNode.elem "h2" [] [HNode.text "T"]]
      (by decide)).1 "s9" rfl (by decide) (by decide)

/-- C10: a section container carrying an id but having no header
descendant (and no nested section) still loses its id: the attribute is
removed without being assigned to any other element, so when the id
matched no other element of the fragment it disappears from the chapter
content entirely. -/
theorem claim10_section_id_dropped (a : List (String × String)) (c : List HNode)
    (sid : String)
    (hns : anyDescP (tagP "section") c = false)
    (hnh : anyDescP isHeaderNode c = false)
    (hga : getAttrL a "id" = some sid) (hsne : sid ≠ "") :
    setIdsList [HNode.elem "section" a c] = [HNode.elem "section" (removeAttrL a "id") c]
    ∧ (countMatches sid c = 0 →
        countMatches sid (setIdsList [HNode.elem "section" a c]) = 0) := by
  have hfd : firstDescP isHeaderNode c = none := by
    cases h : firstDescP isHeaderNode c with
    | none => rfl
    | some r =>
        unfold anyDescP at hnh
        rw [h] at hnh
        simp at hnh
  have hfh : firstHeaderIdAttr c = none := by
    unfold firstHeaderIdAttr
    rw [hfd]
  have hset : setFirstHeaderIdAttr sid c = c := mapFirstDescP_id _ _ c hnh
  have hsec : sectionRule a c = (removeAttrL a "id", c) := by
    simp [sectionRule, hga, hsne, hfh, hset]
  have heq : setIdsList [HNode.elem "section" a c]
      = [HNode.elem "section" (removeAttrL a "id") c] := by
    simp only [setIdsList, hsec, if_pos trivial]
    rw [setIdsList_id c hns]
  refine ⟨heq, fun hz => ?_⟩
  rw [heq]
  have hm : matchesId sid (HNode.elem "section" (removeAttrL a "id") c) = false := by
    simp [matchesId, getAttrL_removeAttrL]
  have hznil := collect_eq_nil sid c hz
  unfold countMatches
  simp [collectMatches, collectMatchesN, hm, hznil]

/-- C10 (witness): a section with id sX holding only a paragraph: the id
is dropped and sX matches nothing in the reconciled fragment. -/
theorem claim10_section_id_dropped_w :
    (setIdsList [HNode.elem "section" [("id", "sX")] [HNode.elem "p" [] [HNode.text "t"]]]
        = [HNode.elem "section" (removeAttrL [("id", "sX")] "id")
            [HNode.elem "p" [] [HNode.text "t"]]])
    ∧ countMatches "sX"
        (setIdsList [HNode.elem "section" [("id", "sX")]
          [HNode.elem "p" [] [HNode.text "t"]]]) = 0 :=
  ⟨(claim10_section_id_dropped [("id", "sX")] [HNode.elem "p" [] [HNode.text "t"]] "sX"
      (by decide) (by decide) rfl (by decide)).1,
    (claim10_section_id_dropped [("id", "sX")] [HNode.elem "p" [] [HNode.text "t"]] "sX"
      (by decide) (by decide) rfl (by decide)).2 (by decide)⟩

/-- C3 (counterexample): applying the program-listing rewrite twice to a
pre.programlisting block already wrapped in a code span does not produce
the once-applied output: each application adds one further code nesting
level, so the pass is not idempotent on already-wrapped input. -/
theorem claim3_not_idempotent_cex :
    renderL (wrapListingList (wrapListingList
        [HNode.elem "pre" [("class", "programlisting")]
          [HNode.elem "code" [] [HNode.text "X"]]]))
      ≠ renderL (wrapListingList
        [HNode.elem "pre" [("class", "programlisting")]
          [HNode.elem "code" [] [HNode.text "X"]]]) := by decide

/-- C3 (amended): the program-listing rewrite is not idempotent: applied to
a matching preformatted block whose content is already wrapped in a code
span, it wraps the (recursively processed) content in one more code span
instead of leaving the block as it is. -/
theorem claim3_wrap_again (a ca : List (String × String)) (c : List HNode)
    (h : (hasClassL a "programlisting" || hasClassL a "screen") = true) :
    wrapListingList [HNode.elem "pre" a [HNode.elem "code" ca c]]
      = [HNode.elem "pre" a
          [HNode.elem "code" [] [HNode.elem "code" ca (wrapListingList c)]]] := by
  simp [wrapListingList, wrapListingN, h]

/-- C3 (witness): the wrap-again theorem applied to an already wrapped
block with the programlisting class. -/
theorem claim3_wrap_again_w :
    ((hasClassL [("class", "programlisting")] "programlisting"
        || hasClassL [("class", "programlisting")] "screen") = true)
    ∧ wrapListingList [HNode.elem "pre" [("class", "programlisting")]
          [HNode.elem "code" [] [HNode.text "X"]]]
      = [HNode.elem "pre" [("class", "programlisting")]
          [HNode.elem "code" []
            [HNode.elem "code" [] (wrapListingList [HNode.text "X"])]]] :=
  ⟨by decide, claim3_wrap_again [("class", "programlisting")] [] [HNode.text "X"] (by decide)⟩

/-- C4: the claim that normalization never aborts is contradicted by the
code: on a literal-layout container with no paragraph descendant the
html() call on the empty paragraph selection returns null, trim() on null
raises a TypeError, and the whole pass aborts instead of skipping the
rule instance. -/
theorem claim4_literallayout_crash :
    processHTML [HNode.elem "div" [("class", "literallayout")] [HNode.text "verbatim text"]]
      = Except.error "TypeError: cannot call trim on null" := rfl

/-- C5 (counterexample): normalizing the example container does not
produce the bare heading-plus-body of the claim: the example container
itself stays in the output, so the result differs from the claimed
string. -/
theorem claim5_container_remains_cex :
    processHTML [HNode.elem "div" [("id", "ex1"), ("class", "example")]
        [HNode.elem "div" [("class", "example-title")] [HNode.text "Caption"],
          HNode.text "Body"]]
      = Except.ok [HNode.elem "div" [("class", "example")]
          [HNode.elem "h6" [("id", "ex1")] [HNode.text "Caption"], HNode.text "Body"]]
    ∧ renderL [HNode.elem "div" [("class", "example")]
          [HNode.elem "h6" [("id", "ex1")] [HNode.text "Caption"], HNode.text "Body"]]
        ≠ "<h6 id=\"ex1\">Caption</h6>Body" :=
  ⟨rfl, by decide⟩

/-- C5 (amended): normalizing the example container moves the identifying
attribute onto a new level-6 heading that replaces the caption
sub-container in place, but the container itself remains, keeping its
class and losing only its id: the output renders as the container
wrapping the heading and the body. -/
theorem claim5_example_rewrite :
    processHTML [HNode.elem "div" [("id", "ex1"), ("class", "example")]
        [HNode.elem "div" [("class", "example-title")] [HNode.text "Caption"],
          HNode.text "Body"]]
      = Except.ok [HNode.elem "div" [("class", "example")]
          [HNode.elem "h6" [("id", "ex1")] [HNode.text "Caption"], HNode.text "Body"]]
    ∧ renderL [HNode.elem "div" [("class", "example")]
          [HNode.elem "h6" [("id", "ex1")] [HNode.text "Caption"], HNode.text "Body"]]
        = "<div class=\"example\"><h6 id=\"ex1\">Caption</h6>Body</div>" :=
  ⟨rfl, by decide⟩

/-- C6 (counterexample): the footnote-reference rewrite does not turn the
link into a superscript whose content is the marker followed by an
emptied link: the marker text ends up as the label of the link nested
inside the superscript, so the output differs from the claimed string. -/
theorem claim6_label_cex :
    processHTML [HNode.elem "a" [("class", "footnote")]
        [HNode.elem "sup" [] [HNode.text "3"]]]
      = Except.ok [HNode.elem "sup" []
          [HNode.text "", HNode.elem "a" [("class", "footnote")] [HNode.text "3"]]]
    ∧ renderL [HNode.elem "sup" []
          [HNode.text "", HNode.elem "a" [("class", "footnote")] [HNode.text "3"]]]
        ≠ "<sup>3<a class=\"footnote\"></a></sup>" :=
  ⟨rfl, by decide⟩

/-- C6 (amended): the footnote-reference rewrite replaces the link by a
superscript that contains the link, whose label is the former marker text
(rendering as sup wrapping the relabeled link); a footnote-reference link
whose element children are not exactly one superscript marker is kept,
and is byte-for-byte unchanged whenever its subtree holds no other
rewritable link. -/
theorem claim6_footnote_rewrite :
    (processHTML [HNode.elem "a" [("class", "footnote")]
          [HNode.elem "sup" [] [HNode.text "3"]]]
        = Except.ok [HNode.elem "sup" []
            [HNode.text "", HNode.elem "a" [("class", "footnote")] [HNode.text "3"]]]
      ∧ renderL [HNode.elem "sup" []
            [HNode.text "", HNode.elem "a" [("class", "footnote")] [HNode.text "3"]]]
          = "<sup><a class=\"footnote\">3</a></sup>")
    ∧ ∀ (at2 : List (String × String)) (c : List HNode),
        (hasClassL at2 "footnote" || hasClassL at2 "footnoteref") = true →
        isSingleSup c = false → fnoteRefList c = c →
        fnoteRefList [HNode.elem "a" at2 c] = [HNode.elem "a" at2 c] := by
  refine ⟨⟨rfl, by decide⟩, ?_⟩
  intro at2 c hcls hss hfix
  have h1 : fnoteRefList [HNode.elem "a" at2 c] = [fnoteRefN (HNode.elem "a" at2 c)] := by
    simp [fnoteRefList]
  rw [h1]
  simp only [fnoteRefN, hcls, Bool.and_true, decide_True, Bool.true_and, if_pos]
  split
  · next sa sc heq =>
      exfalso
      unfold isSingleSup at hss
      rw [heq] at hss
      simp at hss
  · rw [hfix]

/-- C6 (witness): a footnote-reference link with two superscript children
is left byte-for-byte unchanged. -/
theorem claim6_footnote_rewrite_w :
    ((hasClassL [("class", "footnote")] "footnote"
        || hasClassL [("class", "footnote")] "footnoteref") = true)
    ∧ isSingleSup [HNode.elem "sup" [] [HNode.text "3"],
        HNode.elem "sup" [] [HNode.text "4"]] = false
    ∧ fnoteRefList [HNode.elem "a" [("class", "footnote")]
          [HNode.elem "sup" [] [HNode.text "3"], HNode.elem "sup" [] [HNode.text "4"]]]
        = [HNode.elem "a" [("class", "footnote")]
            [HNode.elem "sup" [] [HNode.text "3"], HNode.elem "sup" [] [HNode.text "4"]]] :=
  ⟨by decide, by decide,
    claim6_footnote_rewrite.2 [("class", "footnote")]
      [HNode.elem "sup" [] [HNode.text "3"], HNode.elem "sup" [] [HNode.text "4"]]
      (by decide) (by decide) rfl⟩
